import Mathlib

/-!
Shallow embedding of the ebs-stt-project batch transcription pipeline.

Each definition translates one function of the repository's Python source:
  - utils/path_utils.py   : shard_filepath
  - utils/audio_vad.py    : speech_ratio_wav
  - stt_engine.py         : STTProcessor.stt_whisper (timecode formatting)
  - pg_db.py / sqlite_db.py : _hhmmss_to_ms, upsert_record, upsert_segments
  - oracle.py             : connect_to_oracle, fetch_contents_by_year_range
  - main.py               : process_one, the batch loop of main

External effects (ffmpeg, webrtcvad, whisper, the databases) are modelled by
an environment record carrying the outcome of each external call; process_one
is an interpreter producing the list of observable events for one item.
Python floats are modelled as exact rationals, Python int() truncation as
floor division on non-negative values, and a raised exception as the error
branch of Except or as Option.none.
-/

namespace EbsStt

/-- Python str.zfill: left-pad with zero characters up to the given width
(the string is returned unchanged when already at least that long). -/
def zfill (w : Nat) (s : String) : String :=
  ⟨List.replicate (w - s.data.length) '0' ++ s.data⟩

/-- Model of utils/path_utils.py shard_filepath: the four path components of
the pathlib expression base / level1 / level2 / (cid + ext), where cid is the
content id zero-padded to 8 digits, level1 = cid[0:2] and level2 = cid[2:4]. -/
def shard_filepath (base contentId ext : String) : List String :=
  let cid := zfill 8 contentId
  [base, cid.take 2, (cid.drop 2).take 2, cid ++ ext]

/-- Rendering of a component list as the textual form of the pathlib Path. -/
def renderPath (p : List String) : String :=
  String.intercalate "/" p

/-- Model of shard_filepath called with an integer content id: the source
applies str to the id before padding. -/
def shardOfNat (base : String) (contentId : Nat) (ext : String) : List String :=
  shard_filepath base (toString contentId) ext

end EbsStt

namespace EbsStt

/-- Python str.strip on a character list: drop whitespace from both ends. -/
def pyStrip (l : List Char) : List Char :=
  ((l.dropWhile Char.isWhitespace).reverse.dropWhile Char.isWhitespace).reverse

/-- Digit run parsing: the value of a non-empty all-digit character list,
none otherwise.  Used to model the Python int() builtin on such strings. -/
def digitsToNat : List Char → Option Nat
  | [] => none
  | l =>
    if l.all Char.isDigit then
      some (l.foldl (fun n c => n * 10 + (c.toNat - '0'.toNat)) 0)
    else none

/-- Model of the Python int() builtin on a string: surrounding whitespace is
ignored, an optional single sign precedes the digits, anything else raises
(modelled as none). -/
def pyInt (l : List Char) : Option Int :=
  match pyStrip l with
  | '-' :: rest => (digitsToNat rest).map (fun n => -(n : Int))
  | '+' :: rest => (digitsToNat rest).map (fun n => (n : Int))
  | rest => (digitsToNat rest).map (fun n => (n : Int))

/-- Python str.split(sep) for a single-character separator. -/
def splitOnChar (sep : Char) : List Char → List (List Char)
  | [] => [[]]
  | c :: cs =>
    match splitOnChar sep cs with
    | [] => [[]]
    | t :: ts => if c = sep then [] :: t :: ts else (c :: t) :: ts

/-- Combination of the timecode parts of pg_db._hhmmss_to_ms: the source
computes (h * 3600 + m * 60 + sec) * 1000 after unpacking two or three
colon-separated fields (a list of two is minutes:seconds; three or more uses
the first three fields; fewer raises an IndexError, modelled as none). -/
def parseHMS : List (List Char) → Option Int
  | [m, sec] => do
    let mv ← pyInt m
    let sv ← pyInt sec
    pure ((0 * 3600 + mv * 60 + sv) * 1000)
  | h :: m :: sec :: _ => do
    let hv ← pyInt h
    let mv ← pyInt m
    let sv ← pyInt sec
    pure ((hv * 3600 + mv * 60 + sv) * 1000)
  | _ => none

/-- Core of pg_db._hhmmss_to_ms over a character list: strip, return 0 for an
empty string, cut the string at the first dot (discarding the fraction), split
the rest on colons and combine. -/
def hhmmssCore (l : List Char) : Option Int :=
  let s := pyStrip l
  if s = [] then some 0
  else
    let hms := if '.' ∈ s then s.takeWhile (fun c => c ≠ '.') else s
    parseHMS (splitOnChar ':' hms)

/-- Model of pg_db._hhmmss_to_ms (identical in sqlite_db): 'HH:MM:SS' or
'HH:MM:SS.sss' to integer milliseconds, fraction truncated; a parse failure
(the ValueError/IndexError raised by the source) is none. -/
def _hhmmss_to_ms (s : String) : Option Int :=
  hhmmssCore s.data

/-- Two-digit zero-padded decimal rendering, as Python %02d inside timedelta. -/
def twoDigits (n : Nat) : String :=
  if n < 10 then "0" ++ toString n else toString n

/-- Rendering of datetime.timedelta(seconds = t) by str for a non-negative
whole number of seconds: 'H:MM:SS', prefixed by a day count when t is at
least one day. -/
def timedeltaStr (t : Nat) : String :=
  let d := t / 86400
  let hms := toString (t % 86400 / 3600) ++ ":" ++ twoDigits (t % 3600 / 60)
      ++ ":" ++ twoDigits (t % 60)
  if d = 0 then hms
  else toString d ++ (if d = 1 then " day, " else " days, ") ++ hms

/-- Python int() applied to a float, truncation toward zero, on an exact
rational model of the float. -/
def pyTruncInt (q : ℚ) : Int :=
  if 0 ≤ q then ⌊q⌋ else -⌊-q⌋

/-- Timecode formatting of stt_engine.STTProcessor.stt_whisper:
str(timedelta(seconds=int(t))).zfill(8) for a segment boundary t in seconds
(whisper segment times are non-negative, so toNat is exact here). -/
def fmtTimecode (q : ℚ) : String :=
  zfill 8 (timedeltaStr (pyTruncInt q).toNat)

/-- One raw segment as emitted by the whisper model: start and end in seconds
(exact rational model of the float) and the recognized text. -/
structure RawSeg where
  start : ℚ
  stop : ℚ
  text : String
deriving DecidableEq, Repr

/-- One formatted segment dict of stt_whisper: start/end timecode strings and
text (the dict keys start, end, text; end is named stop here). -/
structure Seg where
  start : String
  stop : String
  text : String
deriving DecidableEq, Repr

/-- Model of STTProcessor.stt_whisper given the outcome of the underlying
model.transcribe call: a raised recognition error is caught and becomes the
empty list; a successful call yields one formatted dict per model segment in
emission order. -/
def sttWhisper (outcome : Except Unit (List RawSeg)) : List Seg :=
  match outcome with
  | .error _ => []
  | .ok segs => segs.map (fun s => ⟨fmtTimecode s.start, fmtTimecode s.stop, s.text⟩)

/-- One row of the stt_segment table. -/
structure SegRow where
  cid : String
  segNo : Nat
  startMs : Int
  endMs : Int
  text : String
deriving DecidableEq, Repr

/-- Row construction of upsert_segments for one segment dict at index i:
timecodes through _hhmmss_to_ms, text stripped. -/
def segRowOf (cid : String) (i : Nat) (seg : Seg) : Option SegRow := do
  let st ← _hhmmss_to_ms seg.start
  let en ← _hhmmss_to_ms seg.stop
  pure ⟨cid, i, st, en, ⟨pyStrip seg.text.data⟩⟩

/-- Row list construction of upsert_segments: enumerate(stt_segments) with
seg_no starting at the given index; a parse exception anywhere aborts the
whole construction (none). -/
def segRowsOfAux (cid : String) (i : Nat) : List Seg → Option (List SegRow)
  | [] => some []
  | s :: rest => do
    let r ← segRowOf cid i s
    let rs ← segRowsOfAux cid (i + 1) rest
    pure (r :: rs)

/-- Rows built by upsert_segments from a segment list, seg_no from 0. -/
def segRowsOf (cid : String) (segs : List Seg) : Option (List SegRow) :=
  segRowsOfAux cid 0 segs

/-- SQL upsert of one row keyed on (content_id, seg_no): replace the row with
the same key if present, append otherwise. -/
def upsertRow (db : List SegRow) (r : SegRow) : List SegRow :=
  if db.any (fun x => x.cid = r.cid ∧ x.segNo = r.segNo) then
    db.map (fun x => if x.cid = r.cid ∧ x.segNo = r.segNo then r else x)
  else db ++ [r]

/-- Outcome environment for one database write: whether the underlying
execute/commit succeeds. -/
structure DbEnv where
  writeOk : Bool
deriving DecidableEq, Repr

/-- Model of pg_db.upsert_segments: build the rows (a timecode parse error
raises and the exception leaves the function), return without touching the
database when the row list is empty, otherwise bulk-upsert; a write failure is
logged and re-raised (the error is visible to the caller). -/
def pgUpsertSegments (cid : String) (segs : List Seg) (db : List SegRow)
    (env : DbEnv) : List SegRow × Option String :=
  match segRowsOf cid segs with
  | none => (db, some "timecode parse error")
  | some [] => (db, none)
  | some rs =>
    if env.writeOk then (rs.foldl upsertRow db, none)
    else (db, some "db write error")

/-- Model of sqlite_db.upsert_segments: identical row construction (also done
before the try block, so a parse exception still escapes), but a failure of
the database write itself is caught and printed, never re-raised. -/
def sqliteUpsertSegments (cid : String) (segs : List Seg) (db : List SegRow)
    (env : DbEnv) : List SegRow × Option String :=
  match segRowsOf cid segs with
  | none => (db, some "timecode parse error")
  | some [] => (db, none)
  | some rs =>
    if env.writeOk then (rs.foldl upsertRow db, none)
    else (db, none)

/-- One row of the stt_index table (fields irrelevant to the claims are
abstracted to the keyed content id). -/
structure RecRow where
  cid : String
deriving DecidableEq, Repr

/-- Model of pg_db.upsert_record: a write failure is logged and re-raised. -/
def pgUpsertRecord (rec : RecRow) (db : List RecRow) (env : DbEnv) :
    List RecRow × Option String :=
  if env.writeOk then
    ((if db.any (fun x => x.cid = rec.cid) then db else db ++ [rec]), none)
  else (db, some "db write error")

/-- Model of sqlite_db.upsert_record: the whole write sits inside a
try/except that prints and swallows any exception, so the caller always sees
a normal return. -/
def sqliteUpsertRecord (rec : RecRow) (db : List RecRow) (env : DbEnv) :
    List RecRow × Option String :=
  if env.writeOk then
    ((if db.any (fun x => x.cid = rec.cid) then db else db ++ [rec]), none)
  else (db, none)

end EbsStt

namespace EbsStt

/-- Header and sample data of a WAV file as read through the wave module:
frame rate, channel count, sample width in bytes, and the 16-bit samples. -/
structure WavFile where
  sampleRate : Nat
  nChannels : Nat
  sampWidth : Nat
  samples : List Int
deriving DecidableEq, Repr

/-- Format precondition checked by speech_ratio_wav. -/
def wavFmtOk (w : WavFile) : Prop :=
  (w.sampleRate = 8000 ∨ w.sampleRate = 16000 ∨ w.sampleRate = 32000) ∧
  w.nChannels = 1 ∧ w.sampWidth = 2

instance (w : WavFile) : Decidable (wavFmtOk w) := by
  unfold wavFmtOk; infer_instance

/-- Samples per VAD frame: bytes_per_frame = int(sr * (frame_ms/1000.0) * 2)
followed by the integer halving used in readframes (exact integer arithmetic;
for the supported rates the float product is exact and even). -/
def frameLen (sr frameMs : Nat) : Nat :=
  sr * frameMs * 2 / 1000 / 2

/-- The read loop of speech_ratio_wav with an explicit structural fuel (the
loop consumes at least one sample per iteration, so the sample count bounds
the iteration count): take one full frame of k samples at a time; the loop
breaks at the first short read, discarding a trailing partial frame. -/
def completeFramesFuel (k : Nat) : Nat → List Int → List (List Int)
  | 0, _ => []
  | fuel + 1, xs =>
    if 0 < k ∧ k ≤ xs.length then
      xs.take k :: completeFramesFuel k fuel (xs.drop k)
    else []

/-- The read loop of speech_ratio_wav: full frames of k samples, trailing
partial frame discarded. -/
def completeFrames (k : Nat) (xs : List Int) : List (List Int) :=
  completeFramesFuel k xs.length xs

/-- Model of utils/audio_vad.py speech_ratio_wav, the webrtcvad classifier
abstracted as the isSpeech parameter (one Bool per frame, as vad.is_speech):
raise for a non-conformant format, else count voiced complete frames and
return voiced/total, or 0.0 with no complete frame. -/
def speech_ratio_wav (isSpeech : List Int → Bool) (w : WavFile)
    (frameMs : Nat) : Except String ℚ :=
  if wavFmtOk w then
    let k := frameLen w.sampleRate frameMs
    let frames := completeFrames k w.samples
    .ok (if frames.length = 0 then 0
         else (frames.countP isSpeech : ℚ) / (frames.length : ℚ))
  else
    .error ("VAD requires 8/16/32kHz mono s16 PCM. got sr="
      ++ toString w.sampleRate ++ ", ch=" ++ toString w.nChannels
      ++ ", sw=" ++ toString w.sampWidth)

/-- Enhancement filter chain VOICE_ENHANCE_AF of main.py (the getattr
default used when config does not override it). -/
def VOICE_ENHANCE_AF : String :=
  "highpass=f=200,lowpass=f=3800,dynaudnorm=f=150:g=15,afftdn=nr=20"

/-- Audio filter chain assembled by utils/ffmpeg_utils.convert_to_wav: the
optional extra chain is prepended to the fixed resample/format base chain. -/
def ffmpegAfChain (extraAf : Option String) : String :=
  String.intercalate ","
    ((match extraAf with | some af => [af] | none => []) ++
      ["aresample=16000", "aformat=sample_fmts=s16:channel_layouts=mono"])

/-- Observable event of one process_one run.  The convert event carries the
extra audio filter chain of the normalization call (none for the plain
conversion). -/
inductive Event where
  | skipExisting
  | missingSource
  | convert (extraAf : Option String)
  | convertFailLog
  | vadFailLog
  | skipSilent
  | transcribeCall
  | noSpeech
  | saveJson
  | saveJsonFailLog
  | upsertRecordCall
  | upsertSegmentsCall
  | dbFailLog
deriving DecidableEq, Repr

/-- Environment of one item: the data and external-call outcomes process_one
observes for it.  An Except error models the exception the corresponding
Python call would raise. -/
structure ItemEnv where
  jsonExists : Bool
  hasRecord : Bool
  inputExists : Bool
  convertPlain : Except Unit Unit
  convertEnhanced : Except Unit Unit
  vad : Except Unit ℚ
  transcribe : Except Unit (List RawSeg)
  saveJson : Except Unit Unit
  upsertRecordOk : Bool
  upsertSegmentsOk : Bool

/-- Tail of process_one from the STT call on: call stt_whisper once, stop on
an empty result, then save JSON, then upsert the index record and, only if
that succeeded, the segments; a DB failure is logged and swallowed. -/
def afterStt (env : ItemEnv) : List Event :=
  .transcribeCall ::
    (if sttWhisper env.transcribe = [] then [.noSpeech]
     else
       match env.saveJson with
       | .error _ => [.saveJson, .saveJsonFailLog]
       | .ok _ =>
         .saveJson ::
           (if env.upsertRecordOk then
              (if env.upsertSegmentsOk then [.upsertRecordCall, .upsertSegmentsCall]
               else [.upsertRecordCall, .upsertSegmentsCall, .dbFailLog])
            else [.upsertRecordCall, .dbFailLog]))

/-- Tier logic of process_one applied to a measured (or degraded) speech
ratio: below the skip threshold stop silently; below the filter threshold
re-normalize with the enhancement chain (stopping on a transcode failure);
otherwise continue to STT directly. -/
def afterRatio (Tskip Tfilter : ℚ) (env : ItemEnv) (ratio : ℚ) : List Event :=
  if ratio < Tskip then [.skipSilent]
  else if ratio < Tfilter then
    match env.convertEnhanced with
    | .error _ => [.convert (some VOICE_ENHANCE_AF), .convertFailLog]
    | .ok _ => .convert (some VOICE_ENHANCE_AF) :: afterStt env
  else afterStt env

/-- Model of main.process_one as the event trace of one item: skip-existing
pre-check, source existence, plain conversion, VAD measurement (a failure is
logged and the ratio degraded to 0.0), then the tier logic. -/
def processOne (Tskip Tfilter : ℚ) (skipEx : Bool) (env : ItemEnv) : List Event :=
  if skipEx && (env.jsonExists || env.hasRecord) then [.skipExisting]
  else if !env.inputExists then [.missingSource]
  else
    match env.convertPlain with
    | .error _ => [.convert none, .convertFailLog]
    | .ok _ =>
      .convert none ::
        (match env.vad with
         | .error _ => .vadFailLog :: afterRatio Tskip Tfilter env 0
         | .ok r => afterRatio Tskip Tfilter env r)

/-- Model of the batch loop of main: every item is processed in order inside
a per-item try/except, so the loop is total and each item's trace depends
only on its own environment. -/
def runBatch (Tskip Tfilter : ℚ) (skipEx : Bool) (items : List ItemEnv) :
    List (List Event) :=
  items.map (processOne Tskip Tfilter skipEx)

/-- Events that are gating-relevant for the tier claims: normalization calls
and the transcription call. -/
def isGateEvent : Event → Bool
  | .convert _ => true
  | .transcribeCall => true
  | _ => false

/-- Persistence events of process_one: the JSON save and the two upserts. -/
def isPersistEvent : Event → Bool
  | .saveJson => true
  | .upsertRecordCall => true
  | .upsertSegmentsCall => true
  | _ => false

/-- Environment of one catalog item under which process_one runs to a full
Done outcome (nothing pre-exists, source present, all external calls
succeed, some speech recognized at a ratio at or above the filter
threshold). -/
def goodEnv (Tfilter : ℚ) (env : ItemEnv) : Prop :=
  env.jsonExists = false ∧ env.hasRecord = false ∧ env.inputExists = true ∧
  env.convertPlain = .ok () ∧ (∃ r, env.vad = .ok r ∧ Tfilter ≤ r) ∧
  (∃ segs, env.transcribe = .ok segs ∧ segs ≠ []) ∧ env.saveJson = .ok () ∧
  env.upsertRecordOk = true ∧ env.upsertSegmentsOk = true

/-- One catalog row (content irrelevant to the claims). -/
structure OracleRow where
  contentId : String
deriving DecidableEq, Repr

/-- Environment of one catalog fetch: outcome of oracledb.connect and of the
range query. -/
structure OracleEnv where
  connect : Except Unit Unit
  query : Except Unit (List OracleRow)

/-- Observable outcome of fetch_contents_by_year_range: either the process
exited (sys.exit inside connect_to_oracle) or a row list was returned. -/
inductive FetchResult where
  | exited (code : Nat)
  | rows (data : List OracleRow)
deriving DecidableEq, Repr

/-- Model of oracle.connect_to_oracle: a DatabaseError is logged and turned
into sys.exit(1), modelled as an error carrying the exit code. -/
def connect_to_oracle (env : OracleEnv) : Except Nat Unit :=
  match env.connect with
  | .error _ => .error 1
  | .ok _ => .ok ()

/-- Model of oracle.fetch_contents_by_year_range: a connection failure exits
the process; a query failure after a successful connection is caught, logged
and turned into an empty row list; a successful query returns its rows. -/
def fetch_contents_by_year_range (env : OracleEnv) : FetchResult :=
  match connect_to_oracle env with
  | .error code => .exited code
  | .ok _ =>
    match env.query with
    | .error _ => .rows []
    | .ok rs => .rows rs

end EbsStt

namespace EbsStt

theorem zfill_of_length_eq (s : String) (h : s.data.length = 8) : zfill 8 s = s := by
  cases s with
  | mk data =>
    simp only [zfill] at *
    simp [h]

/-- C5: shard_filepath left-pads the content id with zeros to 8 digits, uses
digits 1-2 and 3-4 as the two directory levels, renders as
base/level1/level2/id.ext, is deterministic, and is injective over distinct
zero-padded 8-digit ids; in particular shard("/x", 25051248, ".wav") =
"/x/25/05/25051248.wav" and shard("/x", 7, ".json") = "/x/00/00/00000007.json". -/
theorem shard_filepath_spec :
    (renderPath (shardOfNat "/x" 25051248 ".wav") = "/x/25/05/25051248.wav") ∧
    (renderPath (shardOfNat "/x" 7 ".json") = "/x/00/00/00000007.json") ∧
    (∀ b c e, shard_filepath b c e = shard_filepath b c e) ∧
    (∀ b e c1 c2, c1.data.length = 8 → c2.data.length = 8 →
      shard_filepath b c1 e = shard_filepath b c2 e → c1 = c2) := by
  refine ⟨by decide, by decide, fun b c e => rfl, ?_⟩
  intro b e c1 c2 h1 h2 heq
  simp only [shard_filepath, zfill_of_length_eq c1 h1, zfill_of_length_eq c2 h2,
    List.cons.injEq, and_true, true_and] at heq
  have h4 : c1 ++ e = c2 ++ e := heq.2.2
  have hdata : c1.data ++ e.data = c2.data ++ e.data := by
    have := congrArg String.data h4
    simpa using this
  have hd : c1.data = c2.data := List.append_cancel_right hdata
  cases c1; cases c2; simp only at hd; rw [hd]

/-- Witness for the injectivity part of the C5 theorem at a concrete input. -/
theorem shard_filepath_spec_witness : ("25051248" : String) = "25051248" :=
  shard_filepath_spec.2.2.2 "/x" ".wav" "25051248" "25051248"
    (by decide) (by decide) rfl

theorem completeFramesFuel_congr (k : Nat) :
    ∀ f1 f2 xs, xs.length ≤ f1 → xs.length ≤ f2 →
      completeFramesFuel k f1 xs = completeFramesFuel k f2 xs := by
  intro f1
  induction f1 with
  | zero =>
    intro f2 xs h1 h2
    cases f2 with
    | zero => rfl
    | succ f2 =>
      simp only [completeFramesFuel]
      rw [if_neg (by omega)]
  | succ f1 ih =>
    intro f2 xs h1 h2
    cases f2 with
    | zero =>
      simp only [completeFramesFuel]
      rw [if_neg (by omega)]
    | succ f2 =>
      simp only [completeFramesFuel]
      by_cases hc : 0 < k ∧ k ≤ xs.length
      · rw [if_pos hc, if_pos hc,
          ih f2 (xs.drop k) (by simp only [List.length_drop]; omega)
            (by simp only [List.length_drop]; omega)]
      · rw [if_neg hc, if_neg hc]

theorem completeFrames_eq (k : Nat) (xs : List Int) :
    completeFrames k xs =
      if 0 < k ∧ k ≤ xs.length then xs.take k :: completeFrames k (xs.drop k)
      else [] := by
  by_cases hc : 0 < k ∧ k ≤ xs.length
  · rw [if_pos hc]
    have hx : xs.length = (xs.length - 1) + 1 := by omega
    rw [completeFrames, hx]
    simp only [completeFramesFuel]
    rw [if_pos hc, completeFrames]
    rw [completeFramesFuel_congr k (xs.length - 1) (xs.drop k).length (xs.drop k)
      (by simp only [List.length_drop]; omega) le_rfl]
  · rw [if_neg hc, completeFrames]
    cases hx : xs.length with
    | zero => rfl
    | succ n =>
      simp only [completeFramesFuel]
      rw [if_neg hc]

theorem completeFrames_mem_length_aux (k : Nat) (hk : 0 < k) :
    ∀ (n : Nat) (xs : List Int), xs.length ≤ n →
      ∀ f ∈ completeFrames k xs, f.length = k := by
  intro n
  induction n with
  | zero =>
    intro xs hlen f hf
    rw [completeFrames_eq] at hf
    rw [if_neg (by omega)] at hf
    cases hf
  | succ n ih =>
    intro xs hlen f hf
    rw [completeFrames_eq] at hf
    by_cases hc : 0 < k ∧ k ≤ xs.length
    · rw [if_pos hc] at hf
      rw [List.mem_cons] at hf
      rcases hf with rfl | hf
      · simp [List.length_take, Nat.min_eq_left hc.2]
      · exact ih (xs.drop k) (by simp only [List.length_drop]; omega) f hf
    · rw [if_neg hc] at hf
      cases hf

theorem completeFrames_mem_length (k : Nat) (hk : 0 < k) (xs : List Int) :
    ∀ f ∈ completeFrames k xs, f.length = k :=
  completeFrames_mem_length_aux k hk xs.length xs le_rfl

theorem completeFrames_length_aux (k : Nat) (hk : 0 < k) :
    ∀ (n : Nat) (xs : List Int), xs.length ≤ n →
      (completeFrames k xs).length = xs.length / k := by
  intro n
  induction n with
  | zero =>
    intro xs hlen
    rw [completeFrames_eq, if_neg (by omega)]
    have : xs.length = 0 := by omega
    simp [this]
  | succ n ih =>
    intro xs hlen
    rw [completeFrames_eq]
    by_cases hc : 0 < k ∧ k ≤ xs.length
    · rw [if_pos hc]
      have hrec := ih (xs.drop k) (by simp only [List.length_drop]; omega)
      simp only [List.length_cons, hrec, List.length_drop]
      rw [Nat.div_eq_sub_div hk hc.2]
    · rw [if_neg hc]
      have hlt : xs.length < k := by omega
      simp [Nat.div_eq_of_lt hlt]

theorem completeFrames_length (k : Nat) (hk : 0 < k) (xs : List Int) :
    (completeFrames k xs).length = xs.length / k :=
  completeFrames_length_aux k hk xs.length xs le_rfl

theorem completeFrames_flatten_aux (k : Nat) (hk : 0 < k) :
    ∀ (n : Nat) (xs : List Int), xs.length ≤ n →
      (completeFrames k xs).flatten = xs.take (k * (xs.length / k)) := by
  intro n
  induction n with
  | zero =>
    intro xs hlen
    rw [completeFrames_eq, if_neg (by omega)]
    have : xs.length = 0 := by omega
    simp [this]
  | succ n ih =>
    intro xs hlen
    rw [completeFrames_eq]
    by_cases hc : 0 < k ∧ k ≤ xs.length
    · rw [if_pos hc]
      have hrec := ih (xs.drop k) (by simp only [List.length_drop]; omega)
      simp only [List.flatten_cons, hrec, List.length_drop]
      rw [Nat.div_eq_sub_div hk hc.2, Nat.mul_add, Nat.mul_one,
        Nat.add_comm (k * ((xs.length - k) / k)) k, List.take_add]
    · rw [if_neg hc]
      have hlt : xs.length < k := by omega
      simp [Nat.div_eq_of_lt hlt]

/-- C2: speech_ratio_wav raises for audio that is not mono 16-bit PCM at a
sample rate in 8000/16000/32000; otherwise it counts complete frames of
frame_ms (the trailing partial frame discarded: the frames form an exact
k-sample partition of a prefix of the samples), returns voiced/total, exactly
0.0 when no complete frame exists, and the result always lies in [0,1]. -/
theorem speech_ratio_wav_spec (isSpeech : List Int → Bool) (w : WavFile)
    (frameMs : Nat) :
    (¬ wavFmtOk w → ∃ msg, speech_ratio_wav isSpeech w frameMs = .error msg) ∧
    (wavFmtOk w →
      speech_ratio_wav isSpeech w frameMs =
        .ok (if (completeFrames (frameLen w.sampleRate frameMs) w.samples).length = 0
             then 0
             else ((completeFrames (frameLen w.sampleRate frameMs) w.samples).countP isSpeech : ℚ) /
               ((completeFrames (frameLen w.sampleRate frameMs) w.samples).length : ℚ)) ∧
      ((frameMs = 10 ∨ frameMs = 20 ∨ frameMs = 30) →
        (∀ f ∈ completeFrames (frameLen w.sampleRate frameMs) w.samples,
            f.length = frameLen w.sampleRate frameMs) ∧
        (completeFrames (frameLen w.sampleRate frameMs) w.samples).length
            = w.samples.length / frameLen w.sampleRate frameMs ∧
        (completeFrames (frameLen w.sampleRate frameMs) w.samples).flatten
            = w.samples.take (frameLen w.sampleRate frameMs *
                (w.samples.length / frameLen w.sampleRate frameMs))) ∧
      (∀ r, speech_ratio_wav isSpeech w frameMs = .ok r → 0 ≤ r ∧ r ≤ 1)) := by
  constructor
  · intro hbad
    exact ⟨"VAD requires 8/16/32kHz mono s16 PCM. got sr="
      ++ toString w.sampleRate ++ ", ch=" ++ toString w.nChannels
      ++ ", sw=" ++ toString w.sampWidth,
      by simp only [speech_ratio_wav, if_neg hbad]⟩
  · intro hfmt
    have heq : speech_ratio_wav isSpeech w frameMs =
        .ok (if (completeFrames (frameLen w.sampleRate frameMs) w.samples).length = 0
             then 0
             else ((completeFrames (frameLen w.sampleRate frameMs) w.samples).countP isSpeech : ℚ) /
               ((completeFrames (frameLen w.sampleRate frameMs) w.samples).length : ℚ)) := by
      simp only [speech_ratio_wav, if_pos hfmt]
    refine ⟨heq, ?_, ?_⟩
    · intro hms
      have hk : 0 < frameLen w.sampleRate frameMs := by
        obtain ⟨hsr, _, _⟩ := hfmt
        rcases hsr with h | h | h <;> rcases hms with h' | h' | h' <;>
          simp [frameLen, h, h']
      exact ⟨completeFrames_mem_length _ hk _,
        completeFrames_length _ hk _,
        completeFrames_flatten_aux _ hk w.samples.length w.samples le_rfl⟩
    · intro r hr
      rw [heq] at hr
      have hval := Except.ok.inj hr
      by_cases hz : (completeFrames (frameLen w.sampleRate frameMs) w.samples).length = 0
      · rw [if_pos hz] at hval
        constructor
        · rw [← hval]
        · rw [← hval]
          norm_num
      · rw [if_neg hz] at hval
        have hpos : (0 : ℚ) < ((completeFrames (frameLen w.sampleRate frameMs) w.samples).length : ℚ) := by
          have : 0 < (completeFrames (frameLen w.sampleRate frameMs) w.samples).length :=
            Nat.pos_of_ne_zero hz
          exact_mod_cast this
        have hle : (completeFrames (frameLen w.sampleRate frameMs) w.samples).countP isSpeech ≤
            (completeFrames (frameLen w.sampleRate frameMs) w.samples).length :=
          List.countP_le_length _
        constructor
        · rw [← hval]
          positivity
        · rw [← hval, div_le_one hpos]
          exact_mod_cast hle

set_option maxRecDepth 4000 in
/-- Witness for the C2 theorem: a 44.1 kHz stereo file is rejected, and on a
conformant 8 kHz mono file with 160 samples the frame count is the floor
quotient and the returned ratio lies inside [0,1]. -/
theorem speech_ratio_wav_spec_witness :
    (∃ msg, speech_ratio_wav (fun f => decide (f.length = 80))
        ⟨44100, 2, 2, []⟩ 10 = .error msg) ∧
    (completeFrames (frameLen 8000 10) (List.replicate 160 0)).length
        = (List.replicate 160 (0 : Int)).length / frameLen 8000 10 ∧
    (∃ r, speech_ratio_wav (fun f => decide (f.length = 80))
        ⟨8000, 1, 2, List.replicate 160 0⟩ 10 = .ok r ∧ 0 ≤ r ∧ r ≤ 1) := by
  refine ⟨?_, ?_, ?_⟩
  · exact (speech_ratio_wav_spec (fun f => decide (f.length = 80))
      ⟨44100, 2, 2, []⟩ 10).1 (by decide)
  · exact (((speech_ratio_wav_spec (fun f => decide (f.length = 80))
      ⟨8000, 1, 2, List.replicate 160 0⟩ 10).2 (by decide)).2.1 (by decide)).2.1
  · have h := (speech_ratio_wav_spec (fun f => decide (f.length = 80))
      ⟨8000, 1, 2, List.replicate 160 0⟩ 10).2 (by decide)
    exact ⟨_, h.1, h.2.2 _ h.1⟩

theorem afterStt_filter_gate (env : ItemEnv) :
    (afterStt env).filter isGateEvent = [.transcribeCall] := by
  unfold afterStt
  cases h2 : env.saveJson <;>
    cases hr : env.upsertRecordOk <;>
      cases hs : env.upsertSegmentsOk <;>
        by_cases h1 : sttWhisper env.transcribe = [] <;>
          simp [h1, isGateEvent]

theorem afterStt_of_empty (env : ItemEnv)
    (h : sttWhisper env.transcribe = []) :
    afterStt env = [.transcribeCall, .noSpeech] := by
  simp [afterStt, h]

theorem afterRatio_skip (Tskip Tfilter : ℚ) (env : ItemEnv) (r : ℚ)
    (hr : r < Tskip) : afterRatio Tskip Tfilter env r = [.skipSilent] := by
  simp [afterRatio, hr]

theorem afterRatio_mid (Tskip Tfilter : ℚ) (env : ItemEnv) (r : ℚ)
    (h1 : Tskip ≤ r) (h2 : r < Tfilter) (he : env.convertEnhanced = .ok ()) :
    afterRatio Tskip Tfilter env r =
      .convert (some VOICE_ENHANCE_AF) :: afterStt env := by
  simp [afterRatio, not_lt.mpr h1, h2, he]

theorem afterRatio_high (Tskip Tfilter : ℚ) (env : ItemEnv) (r : ℚ)
    (h1 : Tskip ≤ r) (h2 : Tfilter ≤ r) :
    afterRatio Tskip Tfilter env r = afterStt env := by
  simp [afterRatio, not_lt.mpr h1, not_lt.mpr h2]

theorem processOne_reaches_ratio (Tskip Tfilter : ℚ) (sk : Bool) (env : ItemEnv)
    (hsk : (sk && (env.jsonExists || env.hasRecord)) = false)
    (hin : env.inputExists = true) (hcp : env.convertPlain = .ok ()) :
    processOne Tskip Tfilter sk env =
      .convert none ::
        (match env.vad with
         | .error _ => .vadFailLog :: afterRatio Tskip Tfilter env 0
         | .ok r => afterRatio Tskip Tfilter env r) := by
  simp [processOne, hsk, hin, hcp]

/-- C1: with a measured ratio r below the skip threshold process_one returns
with no transcription call and no persistence operation; with r in the
filter band the audio is normalized exactly twice - plain, then with the
enhancement filter chain - before exactly one transcription call; with r at
or above the filter threshold normalization happens exactly once and the
transcription call follows it directly. -/
theorem process_one_tiers (Tskip Tfilter r : ℚ) (sk : Bool) (env : ItemEnv)
    (hv : env.vad = .ok r) :
    (r < Tskip →
      (processOne Tskip Tfilter sk env).count .transcribeCall = 0 ∧
      (processOne Tskip Tfilter sk env).filter isPersistEvent = []) ∧
    ((sk && (env.jsonExists || env.hasRecord)) = false → env.inputExists = true →
      env.convertPlain = .ok () → Tskip ≤ r → r < Tfilter →
      env.convertEnhanced = .ok () →
      (processOne Tskip Tfilter sk env).filter isGateEvent =
        [.convert none, .convert (some VOICE_ENHANCE_AF), .transcribeCall]) ∧
    ((sk && (env.jsonExists || env.hasRecord)) = false → env.inputExists = true →
      env.convertPlain = .ok () → Tskip ≤ Tfilter → Tfilter ≤ r →
      (processOne Tskip Tfilter sk env).filter isGateEvent =
        [.convert none, .transcribeCall]) := by
  refine ⟨?_, ?_, ?_⟩
  · intro hr
    unfold processOne
    by_cases hsk : (sk && (env.jsonExists || env.hasRecord)) = true
    · simp [hsk, isPersistEvent]
    · rw [Bool.not_eq_true] at hsk
      cases hin : env.inputExists
      · simp [hsk, hin, isPersistEvent]
      · cases hcp : env.convertPlain with
        | error e => simp [hsk, hin, hcp, isPersistEvent]
        | ok u =>
          rw [hv]
          simp [hsk, hin, hcp, afterRatio_skip Tskip Tfilter env r hr,
            isPersistEvent]
  · intro hsk hin hcp h1 h2 he
    rw [processOne_reaches_ratio Tskip Tfilter sk env hsk hin hcp, hv]
    simp only [afterRatio_mid Tskip Tfilter env r h1 h2 he]
    simp [isGateEvent, afterStt_filter_gate env]
  · intro hsk hin hcp hT h2
    rw [processOne_reaches_ratio Tskip Tfilter sk env hsk hin hcp, hv]
    simp only [afterRatio_high Tskip Tfilter env r (le_trans hT h2) h2]
    simp [isGateEvent, afterStt_filter_gate env]

/-- Witness for the C1 theorem at the default thresholds 0.02 and 0.10: a
ratio of 0.01 yields the skip tier, 0.05 the filter band and 0.25 the accept
tier, each with a concrete all-successful environment. -/
theorem process_one_tiers_witness :
    ((processOne (mkRat 1 50) (mkRat 1 10) false
        ⟨false, false, true, .ok (), .ok (), .ok (mkRat 1 100), .ok [⟨0, 2, "a"⟩],
          .ok (), true, true⟩).count .transcribeCall = 0 ∧
      (processOne (mkRat 1 50) (mkRat 1 10) false
        ⟨false, false, true, .ok (), .ok (), .ok (mkRat 1 100), .ok [⟨0, 2, "a"⟩],
          .ok (), true, true⟩).filter isPersistEvent = []) ∧
    ((processOne (mkRat 1 50) (mkRat 1 10) false
        ⟨false, false, true, .ok (), .ok (), .ok (mkRat 1 20), .ok [⟨0, 2, "a"⟩],
          .ok (), true, true⟩).filter isGateEvent =
      [.convert none, .convert (some VOICE_ENHANCE_AF), .transcribeCall]) ∧
    ((processOne (mkRat 1 50) (mkRat 1 10) false
        ⟨false, false, true, .ok (), .ok (), .ok (mkRat 1 4), .ok [⟨0, 2, "a"⟩],
          .ok (), true, true⟩).filter isGateEvent =
      [.convert none, .transcribeCall]) := by
  refine ⟨?_, ?_, ?_⟩
  · exact (process_one_tiers (mkRat 1 50) (mkRat 1 10) (mkRat 1 100) false
      ⟨false, false, true, .ok (), .ok (), .ok (mkRat 1 100), .ok [⟨0, 2, "a"⟩],
        .ok (), true, true⟩ rfl).1 (by decide)
  · exact (process_one_tiers (mkRat 1 50) (mkRat 1 10) (mkRat 1 20) false
      ⟨false, false, true, .ok (), .ok (), .ok (mkRat 1 20), .ok [⟨0, 2, "a"⟩],
        .ok (), true, true⟩ rfl).2.1 rfl rfl rfl (by decide) (by decide) rfl
  · exact (process_one_tiers (mkRat 1 50) (mkRat 1 10) (mkRat 1 4) false
      ⟨false, false, true, .ok (), .ok (), .ok (mkRat 1 4), .ok [⟨0, 2, "a"⟩],
        .ok (), true, true⟩ rfl).2.2 rfl rfl rfl (by decide) (by decide)

theorem afterRatio_no_persist (Tskip Tfilter : ℚ) (env : ItemEnv) (ratio : ℚ)
    (h : sttWhisper env.transcribe = []) :
    (afterRatio Tskip Tfilter env ratio).filter isPersistEvent = [] := by
  unfold afterRatio
  by_cases h1 : ratio < Tskip
  · simp [h1, isPersistEvent]
  · by_cases h2 : ratio < Tfilter
    · cases he : env.convertEnhanced <;>
        simp [h1, h2, he, isPersistEvent, afterStt_of_empty env h]
    · simp [h1, h2, isPersistEvent, afterStt_of_empty env h]

/-- C6: a failure of the underlying recognition call inside stt_whisper is
caught and converted to the empty segment list, never an exception, and an
empty segment list makes process_one return without a JSON save, an index
record upsert or a segment upsert. -/
theorem stt_failure_no_persist (Tskip Tfilter : ℚ) (sk : Bool) (env : ItemEnv) :
    (∀ e : Unit, sttWhisper (.error e) = []) ∧
    (sttWhisper env.transcribe = [] →
      (processOne Tskip Tfilter sk env).filter isPersistEvent = []) ∧
    (env.transcribe = .error () →
      (processOne Tskip Tfilter sk env).filter isPersistEvent = []) := by
  have hmain : sttWhisper env.transcribe = [] →
      (processOne Tskip Tfilter sk env).filter isPersistEvent = [] := by
    intro h
    unfold processOne
    by_cases hsk : (sk && (env.jsonExists || env.hasRecord)) = true
    · simp [hsk, isPersistEvent]
    · rw [Bool.not_eq_true] at hsk
      cases hin : env.inputExists
      · simp [hsk, hin, isPersistEvent]
      · cases hcp : env.convertPlain with
        | error e => simp [hsk, hin, hcp, isPersistEvent]
        | ok u =>
          cases hvv : env.vad <;>
            simp [hsk, hin, hcp, hvv, isPersistEvent,
              afterRatio_no_persist _ _ env _ h]
  refine ⟨fun e => rfl, hmain, fun ht => hmain ?_⟩
  rw [ht]
  rfl

/-- Witness for the C6 theorem: an environment whose recognition call fails
yields no persistence event. -/
theorem stt_failure_no_persist_witness :
    (∀ e : Unit, sttWhisper (.error e) = []) ∧
    (processOne 0 1 false
      ⟨false, false, true, .ok (), .ok (), .ok 1, .error (), .ok (), true, true⟩).filter
        isPersistEvent = [] := by
  refine ⟨?_, ?_⟩
  · exact (stt_failure_no_persist 0 1 false
      ⟨false, false, true, .ok (), .ok (), .ok 1, .error (), .ok (), true, true⟩).1
  · exact (stt_failure_no_persist 0 1 false
      ⟨false, false, true, .ok (), .ok (), .ok 1, .error (), .ok (), true, true⟩).2.2 rfl

/-- C7: a VAD measurement failure does not fail the item: process_one logs
it, degrades the ratio to exactly 0 and applies the ordinary tier logic to
that value; with a positive skip threshold (the default 0.02 included) the
item is then skipped as silent. -/
theorem vad_failure_degrades (Tskip Tfilter : ℚ) (sk : Bool) (env : ItemEnv)
    (hv : env.vad = .error ())
    (hsk : (sk && (env.jsonExists || env.hasRecord)) = false)
    (hin : env.inputExists = true) (hcp : env.convertPlain = .ok ()) :
    processOne Tskip Tfilter sk env =
      .convert none :: .vadFailLog :: afterRatio Tskip Tfilter env 0 ∧
    (0 < Tskip →
      processOne Tskip Tfilter sk env =
        [.convert none, .vadFailLog, .skipSilent]) := by
  have h := processOne_reaches_ratio Tskip Tfilter sk env hsk hin hcp
  rw [hv] at h
  refine ⟨h, fun hpos => ?_⟩
  rw [h, afterRatio_skip Tskip Tfilter env 0 hpos]

/-- Witness for the C7 theorem at the default skip threshold 0.02. -/
theorem vad_failure_degrades_witness :
    processOne (mkRat 1 50) (mkRat 1 10) false
      ⟨false, false, true, .ok (), .ok (), .error (), .ok [], .ok (), true, true⟩ =
      [.convert none, .vadFailLog, .skipSilent] :=
  (vad_failure_degrades (mkRat 1 50) (mkRat 1 10) false
    ⟨false, false, true, .ok (), .ok (), .error (), .ok [], .ok (), true, true⟩
    rfl rfl rfl rfl).2 (by decide)

theorem processOne_of_goodEnv (Tskip Tfilter : ℚ) (env : ItemEnv)
    (hT : Tskip ≤ Tfilter) (hg : goodEnv Tfilter env) :
    processOne Tskip Tfilter false env =
      [.convert none, .transcribeCall, .saveJson, .upsertRecordCall,
        .upsertSegmentsCall] := by
  obtain ⟨hj, hh, hin, hcp, ⟨r, hv, hr⟩, ⟨segs, ht, hne⟩, hsj, hur, hus⟩ := hg
  rw [processOne_reaches_ratio Tskip Tfilter false env (by simp) hin hcp, hv]
  dsimp only
  rw [afterRatio_high Tskip Tfilter env r (le_trans hT hr) hr]
  have hstt : ¬ sttWhisper env.transcribe = [] := by
    rw [ht]
    simpa [sttWhisper] using hne
  unfold afterStt
  simp [hstt, hsj, hur, hus]

/-- C4: the batch loop is total (one trace per item), each item's trace
depends only on that item's own environment, and in a batch of three items
whose middle item fails at the transcoder the first and third items still
run to full persistence while the middle one stops at the logged transcode
failure - the loop finishes instead of crashing. -/
theorem batch_failure_isolation (Tskip Tfilter : ℚ) (sk : Bool) :
    (∀ items : List ItemEnv,
      (runBatch Tskip Tfilter sk items).length = items.length) ∧
    (∀ (items : List ItemEnv) (i : Nat),
      (runBatch Tskip Tfilter sk items)[i]? =
        (items[i]?).map (processOne Tskip Tfilter sk)) ∧
    (∀ e1 e2 e3 : ItemEnv, Tskip ≤ Tfilter →
      goodEnv Tfilter e1 → goodEnv Tfilter e3 →
      e2.inputExists = true → e2.convertPlain = .error () →
      runBatch Tskip Tfilter false [e1, e2, e3] =
        [[.convert none, .transcribeCall, .saveJson, .upsertRecordCall,
            .upsertSegmentsCall],
         [.convert none, .convertFailLog],
         [.convert none, .transcribeCall, .saveJson, .upsertRecordCall,
            .upsertSegmentsCall]]) := by
  refine ⟨?_, ?_, ?_⟩
  · intro items
    simp [runBatch]
  · intro items i
    simp [runBatch]
  · intro e1 e2 e3 hT hg1 hg3 hin2 hcp2
    have h2 : processOne Tskip Tfilter false e2 = [.convert none, .convertFailLog] := by
      simp [processOne, hin2, hcp2]
    simp [runBatch, processOne_of_goodEnv Tskip Tfilter e1 hT hg1,
      processOne_of_goodEnv Tskip Tfilter e3 hT hg3, h2]

/-- Witness for the C4 theorem: a concrete 3-item batch whose middle item
fails to transcode. -/
theorem batch_failure_isolation_witness :
    runBatch 0 1 false
      [⟨false, false, true, .ok (), .ok (), .ok 1, .ok [⟨0, 2, "a"⟩], .ok (), true, true⟩,
       ⟨false, false, true, .error (), .ok (), .ok 1, .ok [], .ok (), true, true⟩,
       ⟨false, false, true, .ok (), .ok (), .ok 1, .ok [⟨0, 2, "a"⟩], .ok (), true, true⟩] =
      [[.convert none, .transcribeCall, .saveJson, .upsertRecordCall,
          .upsertSegmentsCall],
       [.convert none, .convertFailLog],
       [.convert none, .transcribeCall, .saveJson, .upsertRecordCall,
          .upsertSegmentsCall]] :=
  (batch_failure_isolation 0 1 false).2.2
    ⟨false, false, true, .ok (), .ok (), .ok 1, .ok [⟨0, 2, "a"⟩], .ok (), true, true⟩
    ⟨false, false, true, .error (), .ok (), .ok 1, .ok [], .ok (), true, true⟩
    ⟨false, false, true, .ok (), .ok (), .ok 1, .ok [⟨0, 2, "a"⟩], .ok (), true, true⟩
    (by decide)
    ⟨rfl, rfl, rfl, rfl, ⟨1, rfl, le_refl 1⟩, ⟨[⟨0, 2, "a"⟩], rfl, List.cons_ne_nil _ _⟩,
      rfl, rfl, rfl⟩
    ⟨rfl, rfl, rfl, rfl, ⟨1, rfl, le_refl 1⟩, ⟨[⟨0, 2, "a"⟩], rfl, List.cons_ne_nil _ _⟩,
      rfl, rfl, rfl⟩
    rfl rfl

/-- C8 counterexample: a query failure after a successful connection is not a
process-exit condition in the code - fetch_contents_by_year_range catches it
and returns an empty row list, the very value a successful query with no
matching rows returns, so the caller cannot distinguish the two outcomes. -/
theorem fetch_query_failure_counterexample :
    fetch_contents_by_year_range ⟨.ok (), .error ()⟩ = .rows [] ∧
    fetch_contents_by_year_range ⟨.ok (), .error ()⟩ =
      fetch_contents_by_year_range ⟨.ok (), .ok []⟩ ∧
    fetch_contents_by_year_range ⟨.ok (), .error ()⟩ ≠ .exited 1 :=
  ⟨rfl, rfl, by decide⟩

/-- C8 amended: only a connection failure is fatal to the run (process exit
code 1); a query failure after a successful connection is caught and yields
an empty list, indistinguishable from a successful query with no matching
rows. -/
theorem fetch_error_reporting :
    (∀ q, fetch_contents_by_year_range ⟨.error (), q⟩ = .exited 1) ∧
    fetch_contents_by_year_range ⟨.ok (), .error ()⟩ = .rows [] ∧
    (∀ rs, fetch_contents_by_year_range ⟨.ok (), .ok rs⟩ = .rows rs) :=
  ⟨fun _ => rfl, rfl, fun _ => rfl⟩

theorem dropWhile_of_head_clean (l : List Char)
    (h : ∀ c ∈ l, c.isWhitespace = false) :
    l.dropWhile Char.isWhitespace = l := by
  cases l with
  | nil => rfl
  | cons a t =>
    rw [List.dropWhile_cons, if_neg]
    simp [h a (List.mem_cons_self a t)]

theorem pyStrip_of_clean (l : List Char)
    (h : ∀ c ∈ l, c.isWhitespace = false) :
    pyStrip l = l := by
  have h1 : l.dropWhile Char.isWhitespace = l := dropWhile_of_head_clean l h
  have h2 : l.reverse.dropWhile Char.isWhitespace = l.reverse :=
    dropWhile_of_head_clean l.reverse (fun c hc => h c (List.mem_reverse.mp hc))
  unfold pyStrip
  rw [h1, h2, List.reverse_reverse]

theorem takeWhile_append_dot (t : List Char) :
    ∀ s : List Char, (∀ c ∈ s, c ≠ '.') →
      (s ++ '.' :: t).takeWhile (fun c => c ≠ '.') = s := by
  intro s
  induction s with
  | nil =>
    intro _
    simp [List.takeWhile_cons]
  | cons a s ih =>
    intro h
    rw [List.cons_append, List.takeWhile_cons, if_pos]
    · rw [ih (fun c hc => h c (List.mem_cons_of_mem a hc))]
    · simp [h a (List.mem_cons_self a s)]

theorem hhmmss_truncates (s frac : List Char) (hne : s ≠ [])
    (hcl : ∀ c ∈ s, c.isWhitespace = false ∧ c ≠ '.')
    (hfr : ∀ c ∈ frac, c.isWhitespace = false) :
    hhmmssCore (s ++ '.' :: frac) = hhmmssCore s := by
  have hclean : ∀ c ∈ s ++ '.' :: frac, c.isWhitespace = false := by
    intro c hc
    rw [List.mem_append, List.mem_cons] at hc
    rcases hc with hc | hc | hc
    · exact (hcl c hc).1
    · rw [hc]; decide
    · exact hfr c hc
  have hstrip1 : pyStrip (s ++ '.' :: frac) = s ++ '.' :: frac :=
    pyStrip_of_clean _ hclean
  have hstrip2 : pyStrip s = s := pyStrip_of_clean _ (fun c hc => (hcl c hc).1)
  have hdotmem : '.' ∈ s ++ '.' :: frac := by simp
  have hdotnot : ¬ '.' ∈ s := fun hmem => (hcl '.' hmem).2 rfl
  simp only [hhmmssCore, hstrip1, hstrip2]
  rw [if_neg (by simp), if_neg hne, if_pos hdotmem, if_neg hdotnot,
    takeWhile_append_dot frac s (fun c hc => (hcl c hc).2)]

theorem parseHMS_dvd (parts : List (List Char)) (v : Int)
    (h : parseHMS parts = some v) : (1000 : Int) ∣ v := by
  match parts with
  | [] => simp [parseHMS] at h
  | [a] => simp [parseHMS] at h
  | [a, b] =>
    simp only [parseHMS, Option.bind_eq_bind, bind, Option.bind] at h
    cases ha : pyInt a with
    | none => rw [ha] at h; simp at h
    | some av =>
      rw [ha] at h
      cases hb : pyInt b with
      | none => rw [hb] at h; simp at h
      | some bv =>
        rw [hb] at h
        simp only [pure, Option.some.injEq] at h
        rw [← h]
        exact dvd_mul_left 1000 _
  | a :: b :: c :: rest =>
    simp only [parseHMS, Option.bind_eq_bind, bind, Option.bind] at h
    cases ha : pyInt a with
    | none => rw [ha] at h; simp at h
    | some av =>
      rw [ha] at h
      cases hb : pyInt b with
      | none => rw [hb] at h; simp at h
      | some bv =>
        rw [hb] at h
        cases hc : pyInt c with
        | none => rw [hc] at h; simp at h
        | some cv =>
          rw [hc] at h
          simp only [pure, Option.some.injEq] at h
          rw [← h]
          exact dvd_mul_left 1000 _

theorem hhmmss_dvd (s : String) (v : Int) (h : _hhmmss_to_ms s = some v) :
    (1000 : Int) ∣ v := by
  simp only [_hhmmss_to_ms, hhmmssCore] at h
  by_cases hz : pyStrip s.data = []
  · rw [if_pos hz] at h
    simp only [Option.some.injEq] at h
    exact ⟨0, by omega⟩
  · rw [if_neg hz] at h
    exact parseHMS_dvd _ v h

theorem segRowOf_spec (cid : String) (i : Nat) (seg : Seg) (r : SegRow)
    (h : segRowOf cid i seg = some r) :
    r.cid = cid ∧ r.segNo = i ∧
    _hhmmss_to_ms seg.start = some r.startMs ∧
    _hhmmss_to_ms seg.stop = some r.endMs := by
  simp only [segRowOf, Option.bind_eq_bind, bind, Option.bind] at h
  cases hst : _hhmmss_to_ms seg.start with
  | none => rw [hst] at h; simp at h
  | some st =>
    rw [hst] at h
    cases hen : _hhmmss_to_ms seg.stop with
    | none => rw [hen] at h; simp at h
    | some en =>
      rw [hen] at h
      simp only [pure, Option.some.injEq] at h
      rw [← h]
      exact ⟨rfl, rfl, rfl, rfl⟩

theorem segRowsOfAux_spec (cid : String) :
    ∀ (segs : List Seg) (i : Nat) (rs : List SegRow),
      segRowsOfAux cid i segs = some rs →
      rs.length = segs.length ∧
      ∀ j (hj : j < rs.length) (hs : j < segs.length),
        segRowOf cid (i + j) segs[j] = some rs[j] := by
  intro segs
  induction segs with
  | nil =>
    intro i rs h
    simp only [segRowsOfAux, Option.some.injEq] at h
    rw [← h]
    exact ⟨rfl, fun j hj hs => absurd hs (by simp)⟩
  | cons s rest ih =>
    intro i rs h
    simp only [segRowsOfAux, Option.bind_eq_bind, bind, Option.bind] at h
    cases hr : segRowOf cid i s with
    | none => rw [hr] at h; simp at h
    | some r =>
      rw [hr] at h
      cases hrs : segRowsOfAux cid (i + 1) rest with
      | none => rw [hrs] at h; simp at h
      | some rsTail =>
        rw [hrs] at h
        simp only [pure, Option.some.injEq] at h
        obtain ⟨hlen, hget⟩ := ih (i + 1) rsTail hrs
        rw [← h]
        constructor
        · simp [hlen]
        · intro j hj hs
          cases j with
          | zero => simpa using hr
          | succ j =>
            have hj' : j < rsTail.length := by simpa using hj
            have hs' : j < rest.length := by simpa using hs
            have hrec := hget j hj' hs'
            have harith : i + (j + 1) = i + 1 + j := by omega
            simp only [List.getElem_cons_succ, harith]
            exact hrec

theorem segRowsOfAux_dvd (cid : String) :
    ∀ (segs : List Seg) (i : Nat) (rs : List SegRow),
      segRowsOfAux cid i segs = some rs →
      ∀ r ∈ rs, (1000 : Int) ∣ r.startMs ∧ (1000 : Int) ∣ r.endMs := by
  intro segs
  induction segs with
  | nil =>
    intro i rs h
    simp only [segRowsOfAux, Option.some.injEq] at h
    rw [← h]
    intro r hr
    cases hr
  | cons s rest ih =>
    intro i rs h
    simp only [segRowsOfAux, Option.bind_eq_bind, bind, Option.bind] at h
    cases hr : segRowOf cid i s with
    | none => rw [hr] at h; simp at h
    | some r =>
      rw [hr] at h
      cases hrs : segRowsOfAux cid (i + 1) rest with
      | none => rw [hrs] at h; simp at h
      | some rsTail =>
        rw [hrs] at h
        simp only [pure, Option.some.injEq] at h
        rw [← h]
        intro x hx
        rw [List.mem_cons] at hx
        rcases hx with hx | hx
        · obtain ⟨_, _, hst, hen⟩ := segRowOf_spec cid i s r hr
          rw [hx]
          exact ⟨hhmmss_dvd s.start _ hst, hhmmss_dvd s.stop _ hen⟩
        · exact ih (i + 1) rsTail hrs x hx

theorem mem_upsertRow (db : List SegRow) (r x : SegRow)
    (hx : x ∈ upsertRow db r) : x ∈ db ∨ x = r := by
  unfold upsertRow at hx
  by_cases hc : db.any (fun y => decide (y.cid = r.cid ∧ y.segNo = r.segNo)) = true
  · rw [if_pos hc] at hx
    rw [List.mem_map] at hx
    obtain ⟨y, hy, hfy⟩ := hx
    by_cases hk : y.cid = r.cid ∧ y.segNo = r.segNo
    · rw [if_pos hk] at hfy
      exact Or.inr hfy.symm
    · rw [if_neg hk] at hfy
      exact Or.inl (hfy ▸ hy)
  · rw [if_neg hc] at hx
    rw [List.mem_append, List.mem_singleton] at hx
    exact hx

theorem mem_foldl_upsertRow :
    ∀ (rs db : List SegRow) (x : SegRow),
      x ∈ rs.foldl upsertRow db → x ∈ db ∨ x ∈ rs := by
  intro rs
  induction rs with
  | nil => intro db x hx; exact Or.inl hx
  | cons r rest ih =>
    intro db x hx
    rcases ih (upsertRow db r) x hx with h | h
    · rcases mem_upsertRow db r x h with h' | h'
      · exact Or.inl h'
      · exact Or.inr (by rw [h']; exact List.mem_cons_self r rest)
    · exact Or.inr (List.mem_cons_of_mem _ h)

theorem fmtTimecode_floor (q : ℚ) (h : 0 ≤ q) :
    fmtTimecode q = fmtTimecode ((⌊q⌋ : ℤ) : ℚ) := by
  have h1 : pyTruncInt q = ⌊q⌋ := by
    unfold pyTruncInt
    rw [if_pos h]
  have h2 : pyTruncInt ((⌊q⌋ : ℤ) : ℚ) = ⌊q⌋ := by
    unfold pyTruncInt
    rw [if_pos (by exact_mod_cast Int.floor_nonneg.mpr h), Int.floor_intCast]
  unfold fmtTimecode
  rw [h1, h2]

theorem pgUpsertSegments_write (cid : String) (segs : List Seg)
    (db : List SegRow) (env : DbEnv) (rs : List SegRow)
    (h : segRowsOf cid segs = some rs) (hne : rs ≠ [])
    (hw : env.writeOk = true) :
    pgUpsertSegments cid segs db env = (rs.foldl upsertRow db, none) := by
  unfold pgUpsertSegments
  rw [h]
  cases rs with
  | nil => exact absurd rfl hne
  | cons a t => simp [hw]

theorem pgUpsertSegments_mem (cid : String) (segs : List Seg)
    (db : List SegRow) (env : DbEnv) (r : SegRow)
    (hr : r ∈ (pgUpsertSegments cid segs db env).1) :
    r ∈ db ∨ ((1000 : Int) ∣ r.startMs ∧ (1000 : Int) ∣ r.endMs) := by
  unfold pgUpsertSegments at hr
  cases hs : segRowsOf cid segs with
  | none => rw [hs] at hr; exact Or.inl hr
  | some rs =>
    rw [hs] at hr
    cases rs with
    | nil => exact Or.inl hr
    | cons a t =>
      by_cases hw : env.writeOk = true
      · simp only [hw, if_true] at hr
        rcases mem_foldl_upsertRow (a :: t) db r hr with h | h
        · exact Or.inl h
        · exact Or.inr (segRowsOfAux_dvd cid segs 0 (a :: t) hs r h)
      · simp only [hw, if_false] at hr
        exact Or.inl hr

/-- C3: pg_db.upsert_segments writes one row per segment, with seg_no
assigned 0,1,2,... in emission order and start/end timecodes converted to
integer milliseconds by _hhmmss_to_ms, which truncates any sub-second
fraction; with an empty segment list it performs no write at all and deletes
nothing: the stored rows are returned unchanged. -/
theorem upsert_segments_spec :
    (∀ cid db env, pgUpsertSegments cid [] db env = (db, none)) ∧
    (∀ cid segs rs, segRowsOf cid segs = some rs →
      rs.length = segs.length ∧
      ∀ j (hj : j < rs.length) (hs : j < segs.length),
        rs[j].cid = cid ∧ rs[j].segNo = j ∧
        _hhmmss_to_ms segs[j].start = some rs[j].startMs ∧
        _hhmmss_to_ms segs[j].stop = some rs[j].endMs) ∧
    (∀ s frac : String, s.data ≠ [] →
      (∀ c ∈ s.data, c.isWhitespace = false ∧ c ≠ '.') →
      (∀ c ∈ frac.data, c.isWhitespace = false) →
      _hhmmss_to_ms (s ++ "." ++ frac) = _hhmmss_to_ms s) ∧
    (∀ cid segs db env rs, segRowsOf cid segs = some rs → rs ≠ [] →
      env.writeOk = true →
      pgUpsertSegments cid segs db env = (rs.foldl upsertRow db, none)) := by
  refine ⟨fun cid db env => rfl, ?_, ?_, ?_⟩
  · intro cid segs rs h
    obtain ⟨hlen, hget⟩ := segRowsOfAux_spec cid segs 0 rs h
    refine ⟨hlen, fun j hj hs => ?_⟩
    have hrow := hget j hj hs
    obtain ⟨hc, hn, hst, hen⟩ := segRowOf_spec cid (0 + j) segs[j] rs[j] hrow
    exact ⟨hc, by rw [hn]; omega, hst, hen⟩
  · intro s frac hne hcl hfr
    unfold _hhmmss_to_ms
    have hdata : (s ++ "." ++ frac).data = s.data ++ '.' :: frac.data := by
      simp
    rw [hdata]
    exact hhmmss_truncates s.data frac.data hne hcl hfr
  · intro cid segs db env rs h hne hw
    exact pgUpsertSegments_write cid segs db env rs h hne hw

/-- Witness for the C3 theorem: an empty call leaves a stored row untouched,
a fractional timecode parses like its whole-second prefix, and a one-segment
call builds and writes the expected row. -/
theorem upsert_segments_spec_witness :
    pgUpsertSegments "c" [] [⟨"c", 0, 5, 5, "old"⟩] ⟨true⟩ =
      ([⟨"c", 0, 5, 5, "old"⟩], none) ∧
    ((([⟨"c", 0, 1000, 2000, "x"⟩] : List SegRow)[0].segNo = 0) ∧
      _hhmmss_to_ms ("0:00:01" ++ "." ++ "500") = _hhmmss_to_ms "0:00:01" ∧
      pgUpsertSegments "c" [⟨"0:00:01", "0:00:02", "x"⟩] [] ⟨true⟩ =
        ([⟨"c", 0, 1000, 2000, "x"⟩].foldl upsertRow [], none)) := by
  refine ⟨?_, ?_, ?_, ?_⟩
  · exact upsert_segments_spec.1 "c" [⟨"c", 0, 5, 5, "old"⟩] ⟨true⟩
  · exact ((upsert_segments_spec.2.1 "c" [⟨"0:00:01", "0:00:02", "x"⟩]
      [⟨"c", 0, 1000, 2000, "x"⟩] (by decide)).2 0 (by decide) (by decide)).2.1
  · exact upsert_segments_spec.2.2.1 "0:00:01" "500" (by decide) (by decide)
      (by decide)
  · exact upsert_segments_spec.2.2.2 "c" [⟨"0:00:01", "0:00:02", "x"⟩] []
      ⟨true⟩ [⟨"c", 0, 1000, 2000, "x"⟩] (by decide) (by decide) rfl

/-- C9: sub-second resolution never reaches the segment table: stt_whisper
formats timecodes from the whole-second truncation of the boundary (the
formatted string depends only on the floor of the seconds value),
_hhmmss_to_ms only ever produces whole-second multiples, and every row an
upsert_segments call adds to the stored set has start_ms and end_ms divisible
by 1000. -/
theorem persisted_ms_divisible :
    (∀ q : ℚ, 0 ≤ q → fmtTimecode q = fmtTimecode ((⌊q⌋ : ℤ) : ℚ)) ∧
    (∀ s v, _hhmmss_to_ms s = some v → (1000 : Int) ∣ v) ∧
    (∀ cid segs db env r, r ∈ (pgUpsertSegments cid segs db env).1 →
      r ∈ db ∨ ((1000 : Int) ∣ r.startMs ∧ (1000 : Int) ∣ r.endMs)) :=
  ⟨fmtTimecode_floor, fun s v h => hhmmss_dvd s v h,
    fun cid segs db env r hr => pgUpsertSegments_mem cid segs db env r hr⟩

/-- Witness for the C9 theorem: 1.5 seconds formats like 1 second, the parsed
value of 0:00:02 is a multiple of 1000, and the single row written for a
concrete segment has multiple-of-1000 fields. -/
theorem persisted_ms_divisible_witness :
    fmtTimecode (mkRat 3 2) = fmtTimecode ((⌊(mkRat 3 2 : ℚ)⌋ : ℤ) : ℚ) ∧
    (1000 : Int) ∣ 2000 ∧
    ((⟨"c", 0, 1000, 2000, "x"⟩ : SegRow) ∈ ([⟨"c", 9, 5, 5, "old"⟩] : List SegRow) ∨
      ((1000 : Int) ∣ (1000 : Int) ∧ (1000 : Int) ∣ (2000 : Int))) := by
  refine ⟨?_, ?_, ?_⟩
  · exact persisted_ms_divisible.1 (mkRat 3 2) (by decide)
  · exact persisted_ms_divisible.2.1 "0:00:02" 2000 (by decide)
  · exact persisted_ms_divisible.2.2 "c" [⟨"0:00:01", "0:00:02", "x"⟩]
      [⟨"c", 9, 5, 5, "old"⟩] ⟨true⟩ ⟨"c", 0, 1000, 2000, "x"⟩ (by decide)

/-- C10 counterexample: the SQLite upsert_segments does not catch every
exception internally - its rows are built before the try block, so a
timecode that int() cannot parse raises out of the function and the failure
is visible to the caller. -/
theorem sqlite_swallow_counterexample :
    (sqliteUpsertSegments "c" [⟨"abc", "0", ""⟩] [] ⟨true⟩).2 ≠ none := by
  decide

/-- C10 amended: the SQLite variants catch exceptions of the database write
itself and return normally, so a write failure is never visible to the
caller (a timecode-parse exception raised while building rows still
escapes); the PostgreSQL variants re-raise write failures, so only there can
a persistence failure reach the Item Pipeline boundary. -/
theorem sqlite_vs_pg_write_failure :
    (∀ rec db env, (sqliteUpsertRecord rec db env).2 = none) ∧
    (∀ cid segs db env rs, segRowsOf cid segs = some rs →
      (sqliteUpsertSegments cid segs db env).2 = none) ∧
    (∀ rec db, (pgUpsertRecord rec db ⟨false⟩).2 = some "db write error") ∧
    (∀ cid segs db rs, segRowsOf cid segs = some rs → rs ≠ [] →
      (pgUpsertSegments cid segs db ⟨false⟩).2 = some "db write error") := by
  refine ⟨?_, ?_, ?_, ?_⟩
  · intro rec db env
    unfold sqliteUpsertRecord
    by_cases hw : env.writeOk = true
    · rw [if_pos hw]
    · rw [if_neg hw]
  · intro cid segs db env rs h
    unfold sqliteUpsertSegments
    rw [h]
    cases rs with
    | nil => rfl
    | cons a t =>
      by_cases hw : env.writeOk = true
      · simp [hw]
      · simp [hw]
  · intro rec db
    rfl
  · intro cid segs db rs h hne
    unfold pgUpsertSegments
    rw [h]
    cases rs with
    | nil => exact absurd rfl hne
    | cons a t => rfl

/-- Witness for the amended C10 theorem at concrete rows and environments. -/
theorem sqlite_vs_pg_write_failure_witness :
    (sqliteUpsertRecord ⟨"c"⟩ [] ⟨false⟩).2 = none ∧
    (sqliteUpsertSegments "c" [⟨"0:00:01", "0:00:02", "x"⟩] [] ⟨false⟩).2 = none ∧
    (pgUpsertRecord ⟨"c"⟩ [] ⟨false⟩).2 = some "db write error" ∧
    (pgUpsertSegments "c" [⟨"0:00:01", "0:00:02", "x"⟩] [] ⟨false⟩).2 =
      some "db write error" := by
  refine ⟨?_, ?_, ?_, ?_⟩
  · exact sqlite_vs_pg_write_failure.1 ⟨"c"⟩ [] ⟨false⟩
  · exact sqlite_vs_pg_write_failure.2.1 "c" [⟨"0:00:01", "0:00:02", "x"⟩] []
      ⟨false⟩ [⟨"c", 0, 1000, 2000, "x"⟩] (by decide)
  · exact sqlite_vs_pg_write_failure.2.2.1 ⟨"c"⟩ []
  · exact sqlite_vs_pg_write_failure.2.2.2 "c" [⟨"0:00:01", "0:00:02", "x"⟩]
      [] [⟨"c", 0, 1000, 2000, "x"⟩] (by decide) (by decide)

end EbsStt
